import Mathlib

/-!
Verification of the CBT assistant backend.

This file gives a shallow embedding of the two algorithmic cores of the
repository — the image-splitting OCR pipeline (`backend/ocr_service.py`) and
the dual-mode analysis orchestrator (`backend/cbt_llm_service.py`) — and
proves theorems settling the specification claims about them.

Modelling conventions: Python strings are `List Char`; Python exceptions are
`Except Str`; external collaborators (the vision model, the retriever, the
pydantic JSON validators, the filesystem) are parameters of the embedding,
so each embedded function is a pure function of its inputs and of the
recorded outcomes of its external calls.
-/

set_option maxRecDepth 8000

namespace CbtSpec

/-- Python strings are modelled as lists of characters. -/
abbrev Str := List Char

/-- Characters treated as whitespace by Python `str.strip()` and by the regex
class `\s` (ASCII range). -/
def pyIsSpace (c : Char) : Bool :=
  decide (c = ' ' ∨ c = '\t' ∨ c = '\n' ∨ c = '\r' ∨ c = '\x0b' ∨ c = '\x0c')

/-- Remove the trailing run of characters satisfying `p`. -/
def dropEndWhile (p : Char → Bool) (s : Str) : Str :=
  (s.reverse.dropWhile p).reverse

/-- Python `str.strip()`: remove leading and trailing whitespace. -/
def pyStrip (s : Str) : Str :=
  dropEndWhile pyIsSpace (s.dropWhile pyIsSpace)

/-- `begWith pat s` holds when `pat` starts `s` (pattern match at one place). -/
def begWith : Str → Str → Bool
  | [], _ => true
  | _ :: _, [] => false
  | a :: as, b :: bs => a == b && begWith as bs

/-- Index of the first occurrence of `pat` in a string, the way Python
`re.search` locates the leftmost match of a literal pattern. -/
def findSub (pat : Str) : Str → Option Nat
  | [] => if begWith pat [] then some 0 else none
  | c :: t => if begWith pat (c :: t) then some 0 else (findSub pat t).map (· + 1)

/-- `hasSub pat s` holds when `pat` occurs somewhere in `s`. -/
def hasSub (pat s : Str) : Bool :=
  (findSub pat s).isSome

/-- The curly-to-straight quote fix of `_extract_json_from_markdown`:
`.replace(chr(8221) to straight)` then the same for the left curly quote,
which acts independently on each character. -/
def fixQuoteChar (c : Char) : Char :=
  if c = '”' ∨ c = '“' then '"' else c

/-- Both `str.replace` calls of `_extract_json_from_markdown` together. -/
def fixQuotes (s : Str) : Str :=
  s.map fixQuoteChar

/-- The literal opening of a fenced JSON block in the extraction regex. -/
def jsonFence : Str := ['`', '`', '`', 'j', 's', 'o', 'n']

/-- A closing code fence (three backticks). -/
def fence : Str := ['`', '`', '`']

/-- Embedding of `CBTLLMService._extract_json_from_markdown`: search for the
leftmost fenced block opened by the `jsonFence` marker and closed by the
first later `fence`; use its stripped interior when found, else the stripped
full text; then normalize curly double quotes to straight quotes.  (The lazy
regex group together with the two greedy whitespace gaps selects exactly the
text between the marker and the first following fence, up to the stripping
that is applied to the group anyway.) -/
def extract_json_from_markdown (text : Str) : Str :=
  match findSub jsonFence text with
  | some i =>
    let rest := text.drop (i + 7)
    match findSub fence rest with
    | some j => fixQuotes (pyStrip (rest.take j))
    | none => fixQuotes (pyStrip text)
  | none => fixQuotes (pyStrip text)

/-- A model response that wraps payload `p` in a fenced JSON block, the shape
the extraction step is designed to unwrap. -/
def fence_wrap (p : Str) : Str :=
  jsonFence ++ '\n' :: (p ++ '\n' :: fence)

/-- Pydantic model `CognitiveDistortion` from `backend/models.py`. -/
structure CognitiveDistortion where
  name : Str
  explanation : Str
  questions : Option (List Str)
deriving DecidableEq

/-- Pydantic model `CogDistortionAnalysis` from `backend/models.py`
(the context-free result shape). -/
structure CogDistortionAnalysis where
  cognitive_distortions_issue : List CognitiveDistortion
deriving DecidableEq

/-- Pydantic model `CogDistortionComparison` from `backend/models.py`
(the context-mode result shape). -/
structure CogDistortionComparison where
  cognitive_distortions_context : List CognitiveDistortion
  comparison : Str
deriving DecidableEq

/-- The value `analyse_question` returns in its first component: one of the
two mode-dependent pydantic models. -/
inductive AnalysisOut where
  | simple (a : CogDistortionAnalysis)
  | rag (a : CogDistortionComparison)
deriving DecidableEq

/-- External collaborators of `CBTLLMService.analyse_question`: the two
chain invocations and the two pydantic validators.  A chain call that raises
is recorded as `Except.error` with the exception text; the rag chain returns
the raw model text together with the `page_content` of each retrieved
source document. -/
structure LlmEnv where
  simple_chain : Str → Except Str Str
  rag_chain : Str → Except Str (Str × List Str)
  validate_simple : Str → Except Str CogDistortionAnalysis
  validate_rag : Str → Except Str CogDistortionComparison

/-- Embedding of `CBTLLMService.analyse_question` (both modes).  Errors of
the chain call and of validation are re-raised; in context mode the source
content accumulates `page_content + two newlines` per retrieved document
before validation is attempted. -/
def analyse_question (env : LlmEnv) (question : Str) (use_context : Bool) :
    Except Str (AnalysisOut × Str) :=
  match use_context with
  | false =>
    match env.simple_chain question with
    | .error e => .error e
    | .ok raw =>
      match env.validate_simple (extract_json_from_markdown raw) with
      | .error e => .error e
      | .ok analysis => .ok (.simple analysis, [])
  | true =>
    match env.rag_chain question with
    | .error e => .error e
    | .ok result =>
      let source_content := result.2.foldl (fun acc d => acc ++ d ++ ['\n', '\n']) []
      match env.validate_rag (extract_json_from_markdown result.1) with
      | .error e => .error e
      | .ok analysis => .ok (.rag analysis, source_content)

/-- The spec-side reading of "concatenation of raw chunk bodies joined with
blank lines", for comparison with what the code computes: the bodies
intercalated with a blank-line separator. -/
def spec_joined_with_blank_lines (chunks : List Str) : Str :=
  List.intercalate ['\n', '\n'] chunks

/-- One page of a batch run of `OCRService`, together with the recorded
outcomes of its external calls: `split_image` (which touches the filesystem
and OpenCV) and the two `generate` OCR calls on the left and right
sub-images.  An outcome `Except.error e` stands for the call raising an
exception whose `str` is `e`. -/
structure PageJob where
  name : Str
  split_ok : Except Str Unit
  ocr_left : Except Str Str
  ocr_right : Except Str Str

/-- The page-identifying header `process_single_image` puts before a page's
text: two newlines, dashes, the file name, dashes, one newline. -/
def page_header (name : Str) : Str :=
  ("\n\n--- ").toList ++ name ++ (" ---\n").toList

/-- The body of the `try` block of `OCRService.process_single_image`:
split, OCR the left part, OCR the right part, concatenate the stripped
responses, and fall back to a `[No text extracted]` marker when the result
is empty.  Any raising call aborts the whole block. -/
def ocr_attempt (p : PageJob) : Except Str Str :=
  match p.split_ok with
  | .error e => .error e
  | .ok _ =>
    match p.ocr_left with
    | .error e => .error e
    | .ok l =>
      match p.ocr_right with
      | .error e => .error e
      | .ok r =>
        let extracted := pyStrip l ++ pyStrip r
        if extracted = [] then .ok (page_header p.name ++ ("[No text extracted]").toList)
        else .ok (page_header p.name ++ extracted)

/-- Embedding of `OCRService.process_single_image`: the `try` body above,
with any exception caught and converted into the page's failure marker. -/
def process_single_image (p : PageJob) : Str :=
  match ocr_attempt p with
  | .ok t => t
  | .error e => page_header p.name ++ ("[OCR processing failed: ").toList ++ e ++ ("]").toList

/-- Python `s.replace(CR LF, space)`: left-to-right, non-overlapping. -/
def replCRLF : Str → Str
  | [] => []
  | [c] => [c]
  | c1 :: c2 :: t =>
    if c1 = '\r' ∧ c2 = '\n' then ' ' :: replCRLF t
    else c1 :: replCRLF (c2 :: t)

/-- Replacement of a bare line feed by a space. -/
def swapNL (c : Char) : Char :=
  if c = '\n' then ' ' else c

/-- Replacement of a bare carriage return by a space. -/
def swapCR (c : Char) : Char :=
  if c = '\r' then ' ' else c

/-- The newline cleanup in `OCRService.process_images`: replace CR LF pairs,
then each remaining LF, then each remaining CR, by single spaces. -/
def cleanNewlines (s : Str) : Str :=
  ((replCRLF s).map swapNL).map swapCR

/-- `suf` is a suffix of `s` — how a `*.ext` glob pattern selects names. -/
def endsWith (suf s : Str) : Bool :=
  begWith suf.reverse s.reverse

/-- The order in which `get_image_files` returns files: it extends the list
with one `glob` per extension, so all `.jpeg` entries come first (in
directory-listing order), then all `.jpg` entries, then all `.png` entries. -/
def glob_order (entries : List PageJob) : List PageJob :=
  entries.filter (fun p => endsWith ((".jpeg").toList) p.name)
    ++ entries.filter (fun p => endsWith ((".jpg").toList) p.name)
    ++ entries.filter (fun p => endsWith ((".png").toList) p.name)

/-- Embedding of `OCRService.get_image_files`.  `dirExists` records the
`images_dir.exists()` probe, `dir` the directory's printed path, and
`entries` the directory listing. -/
def get_image_files (dirExists : Bool) (dir : Str) (entries : List PageJob) :
    Except Str (List PageJob) :=
  if dirExists = false then .error (("Images directory not found: ").toList ++ dir)
  else
    let image_files := glob_order entries
    if image_files.isEmpty then
      .error (("No image files found in directory: ").toList ++ dir)
    else .ok image_files

/-- Embedding of `OCRService.process_images`: list the image files, process
each page, clean its newlines, and accumulate into one document string. -/
def process_images (dirExists : Bool) (dir : Str) (entries : List PageJob) :
    Except Str Str :=
  match get_image_files dirExists dir entries with
  | .error e => .error e
  | .ok files => .ok (files.foldl (fun acc p => acc ++ cleanNewlines (process_single_image p)) [])

/-- Start of the right-hand zeroed margin in `split_image`’s vertical mask:
the slice `vertical[:, cols-200:] = 0` zeroes columns from `cols - 200` when
`cols ≥ 200` and — by Python's negative-index rule — from
`max 0 (2 * cols - 200)` otherwise. -/
def pEnd (w : Nat) : Nat :=
  if 200 ≤ w then w - 200 else 2 * w - 200

/-- The two margin-zeroing slice assignments of `split_image` applied to one
row of the vertical mask: columns below `200` and from `pEnd w` on become `0`. -/
def zeroMargins (w : Nat) (row : List Nat) : List Nat :=
  row.enum.map (fun p => if p.1 < 200 ∨ pEnd w ≤ p.1 then 0 else p.2)

/-- Column indices of the nonzero entries of one row, with multiplicity —
one entry per surviving pixel, as in the `np.where(vertical != 0)` pair. -/
def rowNonzeroCols (row : List Nat) : List Nat :=
  (row.enum.filter (fun p => decide (p.2 ≠ 0))).map (fun p => p.1)

/-- All surviving column indices of the margin-zeroed vertical mask, row by
row, with multiplicity. -/
def survivingCols (w : Nat) (rows : List (List Nat)) : List Nat :=
  (rows.map (fun r => rowNonzeroCols (zeroMargins w r))).flatten

/-- Rounding as `int(np.round(x))` performs it on a half-integral rational:
round half to even, exactly representing `np.round` on the exact average. -/
def roundHalfEven (num den : Nat) : Nat :=
  let q := num / den
  let r := num % den
  if 2 * r < den then q
  else if den < 2 * r then q + 1
  else if q % 2 = 0 then q else q + 1

/-- The gutter-column computation of `split_image` on the (post-morphology)
vertical mask: zero the margins, collect surviving column indices, and take
the rounded average.  An empty survivor set makes `np.average` return NaN
and the subsequent `int(...)` raise `ValueError: cannot convert float NaN to
integer`, which is the recorded error. -/
def avg_col (w : Nat) (rows : List (List Nat)) : Except Str Nat :=
  let cols := survivingCols w rows
  if cols = [] then .error (("cannot convert float NaN to integer").toList)
  else .ok (roundHalfEven cols.sum cols.length)

/-- The slicing step of `split_image`: `image[:, :avg_col]` and
`image[:, avg_col:]` applied row-wise. -/
def split_halves (g : Nat) (rows : List (List Nat)) :
    List (List Nat) × List (List Nat) :=
  (rows.map (fun r => r.take g), rows.map (fun r => r.drop g))

/-- Gutter detection followed by slicing, as `split_image` chains them on
the working image whose mask is given. -/
def split_image (w : Nat) (rows : List (List Nat)) :
    Except Str (List (List Nat) × List (List Nat)) :=
  match avg_col w rows with
  | .error e => .error e
  | .ok g => .ok (split_halves g rows)

/-- External setup steps of `CBTLLMService`, one per private helper: loading
and chunking the corpus, building the vector store (whose useful output is
the retriever), building the RAG chain, and building the simple chain.  The
type parameters stand for the opaque langchain objects involved. -/
structure SetupEnv (D V C S : Type) where
  load_documents : Except Str D
  setup_vector_store : D → Except Str V
  setup_rag_chain : V → Except Str C
  setup_simple_chain : Except Str S

/-- The attribute slots of a `CBTLLMService` instance that the
initialization guards inspect. -/
structure SvcState (D V C S : Type) where
  documents : Option D
  retriever : Option V
  rag_chain : Option C
  simple_chain : Option S
deriving DecidableEq

/-- Embedding of `CBTLLMService._ensure_rag_ready`: return immediately when
both the RAG chain and the retriever are present, otherwise run the three
setup steps and re-raise any failure. -/
def ensure_rag_ready (env : SetupEnv D V C S) (s : SvcState D V C S) :
    Except Str (SvcState D V C S) :=
  if s.rag_chain.isSome ∧ s.retriever.isSome then .ok s
  else
    match env.load_documents with
    | .error e => .error e
    | .ok d =>
      match env.setup_vector_store d with
      | .error e => .error e
      | .ok v =>
        match env.setup_rag_chain v with
        | .error e => .error e
        | .ok c => .ok { s with documents := some d, retriever := some v, rag_chain := some c }

/-- Embedding of `CBTLLMService._ensure_simple_ready`: return immediately
when the simple chain is present, otherwise build it, re-raising failure. -/
def ensure_simple_ready (env : SetupEnv D V C S) (s : SvcState D V C S) :
    Except Str (SvcState D V C S) :=
  if s.simple_chain.isSome then .ok s
  else
    match env.setup_simple_chain with
    | .error e => .error e
    | .ok c => .ok { s with simple_chain := some c }

/-- Embedding of `CBTLLMService.__init__`: all four slots start at `None`,
then the constructor runs `_ensure_rag_ready()` and `_ensure_simple_ready()`
in that order, so both pipelines are built eagerly at construction time. -/
def service_init (env : SetupEnv D V C S) : Except Str (SvcState D V C S) :=
  match ensure_rag_ready env ⟨none, none, none, none⟩ with
  | .error e => .error e
  | .ok s1 => ensure_simple_ready env s1

/-! Concrete instances on which the embedded operations are evaluated. -/

/-- A validator accepting exactly the straight-quoted demo payload. -/
def demo_validate : Str → Except Str CogDistortionAnalysis :=
  fun s => if s = ['"', 'a', '"'] then .ok ⟨[]⟩ else .error s

/-- Orchestrator environment whose model wraps a curly-quoted payload in a
fenced JSON block. -/
def env_fenced : LlmEnv :=
  ⟨fun _ => .ok (fence_wrap ['“', 'a', '”']), fun _ => .error [], demo_validate,
    fun _ => .error []⟩

/-- Orchestrator environment whose model answers with the plain-quoted,
unwrapped payload. -/
def env_plain : LlmEnv :=
  ⟨fun _ => .ok (fixQuotes ['“', 'a', '”']), fun _ => .error [], demo_validate,
    fun _ => .error []⟩

/-- Orchestrator environment for context mode retrieving two chunks. -/
def env_rag : LlmEnv :=
  ⟨fun _ => .ok ['x'], fun _ => .ok (['x'], [['a'], ['b']]),
    fun _ => .ok ⟨[]⟩, fun _ => .ok ⟨[], []⟩⟩

/-- Orchestrator environment for simple mode that validates successfully. -/
def env_simple : LlmEnv :=
  ⟨fun _ => .ok ['x'], fun _ => .error [], fun _ => .ok ⟨[]⟩, fun _ => .error []⟩

/-- A page whose left-column OCR call raises while the right one would
succeed. -/
def page_left_fails : PageJob :=
  ⟨("p2.jpg").toList, .ok (), .error (("model timeout").toList),
    .ok (("right column text").toList)⟩

/-- First page of a three-page batch, succeeding normally. -/
def page_one : PageJob :=
  ⟨("p1.jpg").toList, .ok (), .ok (("first page text").toList), .ok []⟩

/-- Third page of a three-page batch, succeeding normally. -/
def page_three : PageJob :=
  ⟨("p3.jpg").toList, .ok (), .ok (("third page text").toList), .ok []⟩

/-- A `.png` page listed before a `.jpg` page in the directory. -/
def page_png : PageJob :=
  ⟨("a.png").toList, .ok (), .ok (("png text").toList), .ok []⟩

/-- The `.jpg` page listed after the `.png` page. -/
def page_jpg : PageJob :=
  ⟨("b.jpg").toList, .ok (), .ok (("jpg text").toList), .ok []⟩

/-- The post-threshold vertical mask of an all-white page: no nonzero pixel
anywhere (one row of width 450). -/
def blank_mask : List (List Nat) :=
  [List.replicate 450 0]

/-- A mask whose only surviving pixel sits in column 220 of a 450-wide row. -/
def mask_dot : List (List Nat) :=
  [(List.replicate 450 0).set 220 1]

/-- Setup environment whose corpus read fails while the simple chain would
build; the opaque langchain objects are plain unit markers. -/
def env_setup_ragfail : SetupEnv Unit Unit Unit Unit :=
  ⟨.error (("corpus file unreadable").toList), fun _ => .ok (), fun _ => .ok (), .ok ()⟩

/-! Basic facts about prefix tests and first-occurrence search. -/

theorem begWith_append_self (p r : Str) : begWith p (p ++ r) = true := by
  induction p with
  | nil => rfl
  | cons a as ih => simp [begWith, ih]

theorem begWith_take {p l : Str} {n : Nat} (h : begWith p (l.take n) = true) :
    begWith p l = true := by
  induction p generalizing l n with
  | nil => rfl
  | cons a as ih =>
    cases l with
    | nil => rw [List.take_nil] at h; exact h
    | cons b bs =>
      cases n with
      | zero => simp [begWith] at h
      | succ m =>
        rw [List.take_succ_cons] at h
        simp only [begWith, Bool.and_eq_true] at h ⊢
        exact ⟨h.1, ih h.2⟩

theorem begWith_of_append {p q u : Str} (h : begWith (p ++ q) u = true) :
    begWith p u = true := by
  induction p generalizing u with
  | nil => rfl
  | cons a as ih =>
    cases u with
    | nil => simp [begWith] at h
    | cons b bs =>
      simp only [List.cons_append, begWith, Bool.and_eq_true] at h ⊢
      exact ⟨h.1, ih h.2⟩

theorem findSub_of_begWith {pat s : Str} (h : begWith pat s = true) :
    findSub pat s = some 0 := by
  cases s <;> simp [findSub, h]

theorem findSub_cons_of_neg {pat : Str} {c : Char} {t : Str}
    (hb : begWith pat (c :: t) = false) :
    findSub pat (c :: t) = (findSub pat t).map (· + 1) := by
  rw [findSub, hb]
  simp

theorem findSub_none_iff {pat s : Str} :
    findSub pat s = none ↔ ∀ i, begWith pat (s.drop i) = false := by
  induction s with
  | nil =>
    cases hb : begWith pat [] with
    | true => simp [findSub, hb]
    | false => simp [findSub, hb]
  | cons c t ih =>
    cases hb : begWith pat (c :: t) with
    | true =>
      simp only [findSub, hb, if_true]
      constructor
      · intro h; cases h
      · intro h
        have := h 0
        rw [List.drop_zero] at this
        rw [hb] at this
        cases this
    | false =>
      rw [findSub_cons_of_neg hb, Option.map_eq_none', ih]
      constructor
      · intro h i
        cases i with
        | zero => rw [List.drop_zero]; exact hb
        | succ n => rw [List.drop_succ_cons]; exact h n
      · intro h i
        have := h (i + 1)
        rwa [List.drop_succ_cons] at this

theorem findSub_some_spec {pat s : Str} {i : Nat} (h : findSub pat s = some i) :
    begWith pat (s.drop i) = true ∧ ∀ j, j < i → begWith pat (s.drop j) = false := by
  induction s generalizing i with
  | nil =>
    cases hb : begWith pat [] with
    | true =>
      rw [findSub_of_begWith hb] at h
      injection h with h
      subst h
      exact ⟨by rw [List.drop_zero]; exact hb, fun j hj => absurd hj (Nat.not_lt_zero j)⟩
    | false => simp [findSub, hb] at h
  | cons c t ih =>
    cases hb : begWith pat (c :: t) with
    | true =>
      rw [findSub_of_begWith hb] at h
      injection h with h
      subst h
      exact ⟨by rw [List.drop_zero]; exact hb, fun j hj => absurd hj (Nat.not_lt_zero j)⟩
    | false =>
      rw [findSub_cons_of_neg hb, Option.map_eq_some'] at h
      obtain ⟨k, hk, rfl⟩ := h
      obtain ⟨h1, h2⟩ := ih hk
      refine ⟨by rwa [List.drop_succ_cons], ?_⟩
      intro j hj
      cases j with
      | zero => rw [List.drop_zero]; exact hb
      | succ n =>
        rw [List.drop_succ_cons]
        exact h2 n (by omega)

theorem hasSub_false_iff {pat s : Str} :
    hasSub pat s = false ↔ ∀ i, begWith pat (s.drop i) = false := by
  unfold hasSub
  cases hf : findSub pat s with
  | none => simpa using findSub_none_iff.mp hf
  | some i =>
    simp only [Option.isSome_some]
    constructor
    · intro h; cases h
    · intro h
      have := (findSub_some_spec hf).1
      rw [h i] at this
      cases this

theorem hasSub_cons {pat : Str} {c : Char} {t : Str} :
    hasSub pat (c :: t) = (begWith pat (c :: t) || hasSub pat t) := by
  unfold hasSub
  rw [findSub]
  cases hb : begWith pat (c :: t) with
  | true => simp
  | false => cases findSub pat t <;> simp

/-! How occurrences behave under the quote-normalization map and under
taking contiguous pieces of a string. -/

theorem begWith_fixQuotes {p s : Str}
    (hp : ∀ c ∈ p, fixQuoteChar c = c ∧ c ≠ '"') :
    begWith p (fixQuotes s) = begWith p s := by
  induction p generalizing s with
  | nil => rfl
  | cons a as ih =>
    cases s with
    | nil => rfl
    | cons b bs =>
      have ha := hp a (List.mem_cons_self a as)
      have has : ∀ c ∈ as, fixQuoteChar c = c ∧ c ≠ '"' :=
        fun c hc => hp c (List.mem_cons_of_mem _ hc)
      simp only [fixQuotes, List.map_cons, begWith]
      have hev : (a == fixQuoteChar b) = (a == b) := by
        by_cases hb : b = '”' ∨ b = '“'
        · have hfb : fixQuoteChar b = '"' := by
            unfold fixQuoteChar
            rw [if_pos hb]
          rw [hfb]
          have h1 : (a == '"') = false := by
            simp only [beq_eq_false_iff_ne, ne_eq]
            exact ha.2
          have h2 : (a == b) = false := by
            simp only [beq_eq_false_iff_ne, ne_eq]
            intro hab
            subst hab
            rcases hb with hb | hb <;> rw [hb] at ha <;> simp [fixQuoteChar] at ha
          rw [h1, h2]
        · have hfb : fixQuoteChar b = b := by
            unfold fixQuoteChar
            rw [if_neg hb]
          rw [hfb]
      have ihb := @ih bs has
      simp only [fixQuotes] at ihb
      rw [hev, ihb]

theorem findSub_fixQuotes {p s : Str}
    (hp : ∀ c ∈ p, fixQuoteChar c = c ∧ c ≠ '"') :
    findSub p (fixQuotes s) = findSub p s := by
  induction s with
  | nil => rfl
  | cons c t ih =>
    show findSub p (fixQuoteChar c :: fixQuotes t) = _
    rw [findSub, findSub]
    have h1 : begWith p (fixQuoteChar c :: fixQuotes t) = begWith p (c :: t) := by
      have := @begWith_fixQuotes p (c :: t) hp
      simpa [fixQuotes] using this
    rw [h1, ih]

theorem begWith_drop_take {pat u : Str} {a k i : Nat}
    (h : begWith pat (((u.drop a).take k).drop i) = true) :
    begWith pat (u.drop (a + i)) = true := by
  rw [List.drop_take] at h
  have := begWith_take h
  rwa [List.drop_drop] at this

theorem hasSub_false_drop_take {pat u : Str} (h : hasSub pat u = false) (a k : Nat) :
    hasSub pat ((u.drop a).take k) = false := by
  rw [hasSub_false_iff] at h ⊢
  intro i
  cases hb : begWith pat (((u.drop a).take k).drop i) with
  | false => rfl
  | true =>
    have := begWith_drop_take hb
    rw [h (a + i)] at this
    cases this

/-! The leading and trailing whitespace strips expressed as contiguous
pieces of the input. -/

theorem dropWhile_eq_drop (q : Char → Bool) (s : Str) :
    ∃ a, s.dropWhile q = s.drop a := by
  induction s with
  | nil => exact ⟨0, rfl⟩
  | cons c t ih =>
    by_cases h : q c = true
    · obtain ⟨a, ha⟩ := ih
      exact ⟨a + 1, by rw [List.dropWhile_cons_of_pos h, List.drop_succ_cons, ha]⟩
    · exact ⟨0, by rw [List.dropWhile_cons_of_neg (by simpa using h), List.drop_zero]⟩

theorem dropEndWhile_eq_take (q : Char → Bool) (s : Str) :
    ∃ k, dropEndWhile q s = s.take k := by
  obtain ⟨a, ha⟩ := dropWhile_eq_drop q s.reverse
  refine ⟨s.length - a, ?_⟩
  unfold dropEndWhile
  rw [ha, List.drop_reverse, List.reverse_reverse]

theorem pyStrip_eq_drop_take (s : Str) :
    ∃ a k, pyStrip s = (s.drop a).take k := by
  obtain ⟨a, ha⟩ := dropWhile_eq_drop pyIsSpace s
  obtain ⟨k, hk⟩ := dropEndWhile_eq_take pyIsSpace (s.drop a)
  refine ⟨a, k, ?_⟩
  unfold pyStrip
  rw [ha, hk]

theorem hasSub_false_pyStrip {pat s : Str} (h : hasSub pat s = false) :
    hasSub pat (pyStrip s) = false := by
  obtain ⟨a, k, hak⟩ := pyStrip_eq_drop_take s
  rw [hak]
  exact hasSub_false_drop_take h a k

theorem hasSub_false_fixQuotes {pat s : Str}
    (hp : ∀ c ∈ pat, fixQuoteChar c = c ∧ c ≠ '"') (h : hasSub pat s = false) :
    hasSub pat (fixQuotes s) = false := by
  unfold hasSub at h ⊢
  rw [findSub_fixQuotes hp]
  exact h

/-! Interaction of quote-fixing and stripping, and their idempotence. -/

theorem fixQuoteChar_idem (c : Char) : fixQuoteChar (fixQuoteChar c) = fixQuoteChar c := by
  unfold fixQuoteChar
  by_cases h : c = '”' ∨ c = '“'
  · rw [if_pos h, if_neg (by decide)]
  · rw [if_neg h, if_neg h]

theorem fixQuotes_idem (s : Str) : fixQuotes (fixQuotes s) = fixQuotes s := by
  unfold fixQuotes
  rw [List.map_map]
  exact List.map_congr_left (fun a _ => fixQuoteChar_idem a)

theorem pyIsSpace_fixQuoteChar (c : Char) : pyIsSpace (fixQuoteChar c) = pyIsSpace c := by
  unfold fixQuoteChar
  by_cases h : c = '”' ∨ c = '“'
  · rw [if_pos h]
    rcases h with h | h <;> subst h <;> decide
  · rw [if_neg h]

theorem pyStrip_fixQuotes (s : Str) : pyStrip (fixQuotes s) = fixQuotes (pyStrip s) := by
  have hq : (pyIsSpace ∘ fixQuoteChar) = pyIsSpace := funext pyIsSpace_fixQuoteChar
  unfold pyStrip dropEndWhile fixQuotes
  simp only [List.dropWhile_map, ← List.map_reverse, hq]

theorem dropWhile_head_not (q : Char → Bool) (s : Str) :
    s.dropWhile q = [] ∨ ∃ c cs, s.dropWhile q = c :: cs ∧ q c = false := by
  induction s with
  | nil => exact Or.inl rfl
  | cons c t ih =>
    by_cases h : q c = true
    · rw [List.dropWhile_cons_of_pos h]
      exact ih
    · exact Or.inr ⟨c, t, List.dropWhile_cons_of_neg (by simpa using h),
        by simpa using h⟩

theorem pyStrip_shape (s : Str) :
    pyStrip s = [] ∨ ∃ c cs, pyStrip s = c :: cs ∧ pyIsSpace c = false ∧
      ∃ d ds, (pyStrip s).reverse = d :: ds ∧ pyIsSpace d = false := by
  rcases dropWhile_head_not pyIsSpace s with h | ⟨c, cs, hw, hc⟩
  · left
    unfold pyStrip dropEndWhile
    rw [h]
    rfl
  · right
    have hps : pyStrip s = ((cs.reverse ++ [c]).dropWhile pyIsSpace).reverse := by
      unfold pyStrip dropEndWhile
      rw [hw, List.reverse_cons]
    rw [List.dropWhile_append] at hps
    by_cases he : (cs.reverse.dropWhile pyIsSpace).isEmpty
    · rw [if_pos he, List.dropWhile_cons_of_neg (by simp [hc])] at hps
      refine ⟨c, [], by simpa using hps, hc, c, [], ?_, hc⟩
      rw [hps]
      simp
    · rw [if_neg he] at hps
      rcases dropWhile_head_not pyIsSpace cs.reverse with h2 | ⟨d, ds, hd, hdn⟩
      · rw [h2] at he
        simp at he
      · rw [hd, List.reverse_append] at hps
        refine ⟨c, (d :: ds).reverse, by simpa using hps, hc, d, ds ++ [c], ?_, hdn⟩
        rw [hps]
        simp

theorem pyStrip_of_clean_ends {v : Str}
    (hhead : ∀ d ds, v = d :: ds → pyIsSpace d = false)
    (hlast : ∀ d ds, v.reverse = d :: ds → pyIsSpace d = false) :
    pyStrip v = v := by
  unfold pyStrip dropEndWhile
  cases hv : v with
  | nil => rfl
  | cons d ds =>
    rw [List.dropWhile_cons_of_neg (by simp [hhead d ds hv])]
    cases hr : (d :: ds).reverse with
    | nil => simp at hr
    | cons e es =>
      have hle : pyIsSpace e = false := hlast e es (by rw [hv]; exact hr)
      rw [List.dropWhile_cons_of_neg (by simp [hle]), ← hr, List.reverse_reverse]

theorem pyStrip_idem (s : Str) : pyStrip (pyStrip s) = pyStrip s := by
  rcases pyStrip_shape s with h | ⟨c, cs, h1, hc, d, ds, h2, hd⟩
  · rw [h]
    rfl
  · apply pyStrip_of_clean_ends
    · intro e es he
      rw [h1] at he
      injection he with he1 _
      rw [← he1]
      exact hc
    · intro e es he
      rw [h2] at he
      injection he with he1 _
      rw [← he1]
      exact hd

theorem pyStrip_cons_ws {c : Char} (hc : pyIsSpace c = true) (s : Str) :
    pyStrip (c :: s) = pyStrip s := by
  unfold pyStrip
  rw [List.dropWhile_cons_of_pos hc]

theorem dropEndWhile_append_ws (q : Char → Bool) {c : Char} (hc : q c = true) (s : Str) :
    dropEndWhile q (s ++ [c]) = dropEndWhile q s := by
  unfold dropEndWhile
  rw [List.reverse_append]
  simp only [List.reverse_cons, List.reverse_nil, List.nil_append, List.singleton_append]
  rw [List.dropWhile_cons_of_pos hc]

theorem pyStrip_append_ws {c : Char} (hc : pyIsSpace c = true) (s : Str) :
    pyStrip (s ++ [c]) = pyStrip s := by
  unfold pyStrip
  rw [List.dropWhile_append]
  by_cases he : (s.dropWhile pyIsSpace).isEmpty
  · rw [if_pos he, List.dropWhile_cons_of_pos hc]
    rw [List.isEmpty_iff] at he
    rw [he]
    rfl
  · rw [if_neg he]
    exact dropEndWhile_append_ws pyIsSpace hc _

/-! Locating the closing fence of a wrapped payload. -/

theorem begWith_fence_append_nl {s r : Str}
    (h : begWith fence (s ++ '\n' :: r) = true) : begWith fence s = true := by
  rcases s with _ | ⟨c, _ | ⟨c2, _ | ⟨c3, t⟩⟩⟩
  · rw [List.nil_append] at h
    simp only [fence, begWith, Bool.and_eq_true, beq_iff_eq] at h
    exact absurd h.1 (by decide)
  · simp only [List.cons_append, List.nil_append, fence, begWith, Bool.and_eq_true,
      beq_iff_eq] at h
    exact absurd h.2.1 (by decide)
  · simp only [List.cons_append, List.nil_append, fence, begWith, Bool.and_eq_true,
      beq_iff_eq] at h
    exact absurd h.2.2.1 (by decide)
  · simp only [List.cons_append, fence, begWith, Bool.and_eq_true, beq_iff_eq] at h ⊢
    exact ⟨h.1, h.2.1, h.2.2.1, trivial⟩

theorem findSub_fence_concat {u : Str} (hu : hasSub fence u = false) :
    findSub fence (u ++ '\n' :: fence) = some (u.length + 1) := by
  induction u with
  | nil =>
    rw [List.nil_append]
    decide
  | cons c t ih =>
    rw [hasSub_cons, Bool.or_eq_false_iff] at hu
    obtain ⟨hb, ht⟩ := hu
    have hb2 : begWith fence ((c :: t) ++ '\n' :: fence) = false := by
      cases hbb : begWith fence ((c :: t) ++ '\n' :: fence) with
      | false => rfl
      | true =>
        rw [begWith_fence_append_nl hbb] at hb
        cases hb
    rw [List.cons_append] at hb2 ⊢
    rw [findSub_cons_of_neg hb2, ih ht]
    rfl

/-- There is no fenced JSON block in `t` at all when `t` has no triple
backtick, since the opening marker starts with one. -/
theorem hasSub_jsonFence_false {t : Str} (h : hasSub fence t = false) :
    hasSub jsonFence t = false := by
  rw [hasSub_false_iff] at h ⊢
  intro i
  cases hb : begWith jsonFence (t.drop i) with
  | false => rfl
  | true =>
    have hf : begWith fence (t.drop i) = true := by
      have hj : jsonFence = fence ++ ['j', 's', 'o', 'n'] := rfl
      rw [hj] at hb
      exact begWith_of_append hb
    rw [h i] at hf
    cases hf

theorem findSub_eq_none_of_hasSub_false {pat s : Str} (h : hasSub pat s = false) :
    findSub pat s = none := by
  unfold hasSub at h
  cases hf : findSub pat s with
  | none => rfl
  | some i => rw [hf] at h; cases h

/-! How the extraction step evaluates in each of its three cases. -/

theorem extract_eq_of_none {t : Str} (h : findSub jsonFence t = none) :
    extract_json_from_markdown t = fixQuotes (pyStrip t) := by
  unfold extract_json_from_markdown
  rw [h]

theorem extract_eq_of_noclose {t : Str} {i : Nat} (h : findSub jsonFence t = some i)
    (h2 : findSub fence (t.drop (i + 7)) = none) :
    extract_json_from_markdown t = fixQuotes (pyStrip t) := by
  unfold extract_json_from_markdown
  rw [h]
  simp only [h2]

theorem extract_eq_interior {t : Str} {i j : Nat} (h : findSub jsonFence t = some i)
    (h2 : findSub fence (t.drop (i + 7)) = some j) :
    extract_json_from_markdown t = fixQuotes (pyStrip ((t.drop (i + 7)).take j)) := by
  unfold extract_json_from_markdown
  rw [h]
  simp only [h2]

/-- Unwrapping a fenced payload: on `fence_wrap p` the extraction step
returns exactly the quote-fixed strip of `p`, for any payload without a
triple backtick. -/
theorem extract_fence_wrap {p : Str} (hp : hasSub fence p = false) :
    extract_json_from_markdown (fence_wrap p) = fixQuotes (pyStrip p) := by
  have h0 : findSub jsonFence (fence_wrap p) = some 0 := by
    apply findSub_of_begWith
    unfold fence_wrap
    exact begWith_append_self _ _
  have hdrop : (fence_wrap p).drop (0 + 7) = '\n' :: (p ++ '\n' :: fence) := by
    unfold fence_wrap
    exact List.drop_left' (by decide)
  have hnp : hasSub fence ('\n' :: p) = false := by
    rw [hasSub_cons, Bool.or_eq_false_iff]
    refine ⟨?_, hp⟩
    show (('`' == '\n') && begWith ['`', '`'] p) = false
    rw [show ('`' == '\n') = false by decide]
    exact Bool.false_and _
  have hfence : findSub fence ((fence_wrap p).drop (0 + 7)) = some (p.length + 2) := by
    rw [hdrop, show '\n' :: (p ++ '\n' :: fence) = ('\n' :: p) ++ '\n' :: fence from rfl,
      findSub_fence_concat hnp]
    rfl
  rw [extract_eq_interior h0 hfence, hdrop]
  have htake : ('\n' :: (p ++ '\n' :: fence)).take (p.length + 2) = '\n' :: (p ++ ['\n']) := by
    rw [show '\n' :: (p ++ '\n' :: fence) = ('\n' :: p) ++ '\n' :: fence from rfl]
    rw [List.take_append_eq_append_take]
    rw [List.take_of_length_le (by simp)]
    simp
  rw [htake, pyStrip_cons_ws (by decide), pyStrip_append_ws (by decide)]

/-- On a payload without any triple backtick the extraction step falls back
to the full text; combined with quote fixing this is stable. -/
theorem extract_no_fence {p : Str} (hp : hasSub fence p = false) :
    extract_json_from_markdown (fixQuotes p) = fixQuotes (pyStrip p) := by
  have hside : ∀ c ∈ jsonFence, fixQuoteChar c = c ∧ c ≠ '"' := by decide
  have hjp : findSub jsonFence (fixQuotes p) = none := by
    rw [findSub_fixQuotes hside]
    exact findSub_eq_none_of_hasSub_false (hasSub_jsonFence_false hp)
  rw [extract_eq_of_none hjp, pyStrip_fixQuotes, fixQuotes_idem]

/-! Substring containment under concatenation. -/

theorem begWith_self (p : Str) : begWith p p = true := by
  have := begWith_append_self p []
  rwa [List.append_nil] at this

theorem hasSub_true_of_beg {pat s : Str} {i : Nat}
    (h : begWith pat (s.drop i) = true) : hasSub pat s = true := by
  unfold hasSub
  cases hf : findSub pat s with
  | some j => rfl
  | none =>
    rw [findSub_none_iff.mp hf i] at h
    cases h

theorem hasSub_self (p : Str) : hasSub p p = true :=
  @hasSub_true_of_beg p p 0 (by rw [List.drop_zero]; exact begWith_self p)

theorem begWith_append_of_begWith {pat u : Str} (x : Str) (h : begWith pat u = true) :
    begWith pat (u ++ x) = true := by
  induction pat generalizing u with
  | nil => rfl
  | cons a as ih =>
    cases u with
    | nil => simp [begWith] at h
    | cons b bs =>
      simp only [List.cons_append, begWith, Bool.and_eq_true] at h ⊢
      exact ⟨h.1, ih h.2⟩

theorem hasSub_append_right {pat s : Str} (x : Str) (h : hasSub pat s = true) :
    hasSub pat (x ++ s) = true := by
  rw [hasSub] at h
  cases hf : findSub pat s with
  | none => rw [hf] at h; cases h
  | some i =>
    have hb := (findSub_some_spec hf).1
    refine @hasSub_true_of_beg pat (x ++ s) (x.length + i) ?_
    rwa [← List.drop_drop, List.drop_left]

theorem hasSub_append_left {pat s : Str} (x : Str) (h : hasSub pat s = true) :
    hasSub pat (s ++ x) = true := by
  rw [hasSub] at h
  cases hf : findSub pat s with
  | none => rw [hf] at h; cases h
  | some i =>
    have hb := (findSub_some_spec hf).1
    refine @hasSub_true_of_beg pat (s ++ x) i ?_
    rw [List.drop_append_eq_append_drop]
    exact begWith_append_of_begWith _ hb

/-! The newline cleanup of the batch processor. -/

theorem replCRLF_cons_of_ne {c : Char} (hc : c ≠ '\r') (t : Str) :
    replCRLF (c :: t) = c :: replCRLF t := by
  cases t with
  | nil => rfl
  | cons d u =>
    show (if c = '\r' ∧ d = '\n' then ' ' :: replCRLF u else c :: replCRLF (d :: u)) = _
    rw [if_neg (fun h => hc h.1)]

theorem replCRLF_no_cr_append {a : Str} (ha : ∀ c ∈ a, c ≠ '\r') (b : Str) :
    replCRLF (a ++ b) = a ++ replCRLF b := by
  induction a with
  | nil => rfl
  | cons c t ih =>
    rw [List.cons_append, replCRLF_cons_of_ne (ha c (List.mem_cons_self c t)),
      ih (fun d hd => ha d (List.mem_cons_of_mem _ hd)), List.cons_append]

theorem cleanNewlines_no_cr_append {a : Str} (ha : ∀ c ∈ a, c ≠ '\r') (b : Str) :
    cleanNewlines (a ++ b) = (a.map swapNL).map swapCR ++ cleanNewlines b := by
  unfold cleanNewlines
  rw [replCRLF_no_cr_append ha, List.map_append, List.map_append]

theorem cleanNewlines_no_newline (s : Str) :
    ∀ c ∈ cleanNewlines s, c ≠ '\n' ∧ c ≠ '\r' := by
  intro c hc
  unfold cleanNewlines at hc
  rw [List.mem_map] at hc
  obtain ⟨d, hd, rfl⟩ := hc
  rw [List.mem_map] at hd
  obtain ⟨e, _, rfl⟩ := hd
  constructor
  · by_cases h1 : e = '\n'
    · subst h1; decide
    · rw [show swapNL e = e from if_neg h1]
      by_cases h2 : e = '\r'
      · subst h2; decide
      · rw [show swapCR e = e from if_neg h2]
        exact h1
  · by_cases h1 : e = '\n'
    · subst h1; decide
    · rw [show swapNL e = e from if_neg h1]
      by_cases h2 : e = '\r'
      · subst h2; decide
      · rw [show swapCR e = e from if_neg h2]
        exact h2

theorem hasSub_append_middle (pat a b : Str) : hasSub pat (a ++ (pat ++ b)) = true :=
  hasSub_append_right a (hasSub_append_left b (hasSub_self pat))

theorem foldl_append_eq (f : PageJob → Str) (files : List PageJob) (init : Str) :
    files.foldl (fun acc p => acc ++ f p) init = init ++ (files.map f).flatten := by
  induction files generalizing init with
  | nil => rw [List.foldl_nil, List.map_nil, List.flatten_nil, List.append_nil]
  | cons p t ih =>
    rw [List.foldl_cons, ih, List.map_cons, List.flatten_cons, List.append_assoc]

/-! Stability of the extraction step under re-extraction. -/

theorem extract_eq_fallback_of_noBlock {t : Str}
    (h : ∀ i, findSub jsonFence t = some i → findSub fence (t.drop (i + 7)) = none) :
    extract_json_from_markdown t = fixQuotes (pyStrip t) := by
  cases hf : findSub jsonFence t with
  | none => exact extract_eq_of_none hf
  | some i => exact extract_eq_of_noclose hf (h i hf)

theorem noBlock_fixQuotes_pyStrip {s : Str}
    (h : ∀ i, findSub jsonFence s = some i → findSub fence (s.drop (i + 7)) = none) :
    ∀ i, findSub jsonFence (fixQuotes (pyStrip s)) = some i →
      findSub fence ((fixQuotes (pyStrip s)).drop (i + 7)) = none := by
  intro i hi
  have hsideJ : ∀ c ∈ jsonFence, fixQuoteChar c = c ∧ c ≠ '"' := by decide
  have hsideF : ∀ c ∈ fence, fixQuoteChar c = c ∧ c ≠ '"' := by decide
  rw [findSub_fixQuotes hsideJ] at hi
  obtain ⟨a, k, hak⟩ := pyStrip_eq_drop_take s
  have hoc : begWith jsonFence (s.drop (a + i)) = true := by
    have hb := (findSub_some_spec hi).1
    rw [hak] at hb
    exact begWith_drop_take hb
  cases hs : findSub jsonFence s with
  | none =>
    rw [findSub_none_iff.mp hs (a + i)] at hoc
    cases hoc
  | some i0 =>
    have hge : i0 ≤ a + i := by
      by_contra hlt
      push_neg at hlt
      rw [(findSub_some_spec hs).2 (a + i) hlt] at hoc
      cases hoc
    have hnone := h i0 hs
    rw [findSub_none_iff]
    intro m
    cases hb : begWith fence (((fixQuotes (pyStrip s)).drop (i + 7)).drop m) with
    | false => rfl
    | true =>
      exfalso
      rw [List.drop_drop] at hb
      have hb2 : begWith fence ((pyStrip s).drop (i + 7 + m)) = true := by
        rw [show fixQuotes (pyStrip s) = (pyStrip s).map fixQuoteChar from rfl,
          ← List.map_drop] at hb
        rw [show ((pyStrip s).drop (i + 7 + m)).map fixQuoteChar
            = fixQuotes ((pyStrip s).drop (i + 7 + m)) from rfl,
          begWith_fixQuotes hsideF] at hb
        exact hb
      rw [hak] at hb2
      have hb3 : begWith fence (s.drop (a + (i + 7 + m))) = true := begWith_drop_take hb2
      have harith : a + (i + 7 + m) = (i0 + 7) + (a + i - i0 + m) := by omega
      rw [harith, ← List.drop_drop] at hb3
      rw [findSub_none_iff.mp hnone (a + i - i0 + m)] at hb3
      cases hb3

theorem interior_no_fence {t : Str} {i j : Nat}
    (h2 : findSub fence (t.drop (i + 7)) = some j) :
    hasSub fence ((t.drop (i + 7)).take j) = false := by
  rw [hasSub_false_iff]
  intro m
  cases hb : begWith fence (((t.drop (i + 7)).take j).drop m) with
  | false => rfl
  | true =>
    exfalso
    rw [List.drop_take] at hb
    have hmj : m < j := by
      by_contra hge
      push_neg at hge
      rw [show j - m = 0 by omega, List.take_zero] at hb
      exact absurd hb (by decide)
    have hb2 : begWith fence ((t.drop (i + 7)).drop m) = true := begWith_take hb
    rw [(findSub_some_spec h2).2 m hmj] at hb2
    cases hb2

/-! Evaluation lemmas for the two modes of the orchestrator. -/

theorem analyse_simple_err {env : LlmEnv} {q e : Str}
    (h : env.simple_chain q = .error e) :
    analyse_question env q false = .error e := by
  unfold analyse_question
  rw [h]

theorem analyse_simple_eq (env : LlmEnv) (q raw : Str)
    (h : env.simple_chain q = .ok raw) :
    analyse_question env q false
      = match env.validate_simple (extract_json_from_markdown raw) with
        | .error e => .error e
        | .ok a => .ok (.simple a, []) := by
  unfold analyse_question
  rw [h]

theorem analyse_rag_err {env : LlmEnv} {q e : Str}
    (h : env.rag_chain q = .error e) :
    analyse_question env q true = .error e := by
  unfold analyse_question
  rw [h]

theorem analyse_rag_eq (env : LlmEnv) (q raw : Str) (docs : List Str)
    (h : env.rag_chain q = .ok (raw, docs)) :
    analyse_question env q true
      = match env.validate_rag (extract_json_from_markdown raw) with
        | .error e => .error e
        | .ok a => .ok (.rag a, docs.foldl (fun acc d => acc ++ d ++ ['\n', '\n']) []) := by
  unfold analyse_question
  rw [h]

/-! Bounds for the detected gutter column. -/

theorem pEnd_le_self (w : Nat) : pEnd w ≤ w := by
  unfold pEnd
  split <;> omega

theorem roundHalfEven_bounds {num den a b : Nat} (hden : 0 < den)
    (hlow : a * den ≤ num) (hhigh : num ≤ b * den) :
    a ≤ roundHalfEven num den ∧ roundHalfEven num den ≤ b := by
  have hq : den * (num / den) + num % den = num := Nat.div_add_mod num den
  have hq' : (num / den) * den + num % den = num := by rw [Nat.mul_comm] at hq; exact hq
  have hrlt : num % den < den := Nat.mod_lt _ hden
  have hqa : a ≤ num / den := by
    rw [Nat.le_div_iff_mul_le hden]
    exact hlow
  have hqb : num / den ≤ b := by
    have h1 : num / den ≤ b * den / den := Nat.div_le_div_right hhigh
    rwa [Nat.mul_div_cancel _ hden] at h1
  have hsucc : 0 < num % den → num / den + 1 ≤ b := by
    intro hr0
    by_contra hcon
    push_neg at hcon
    have hqb2 : num / den = b := by omega
    rw [hqb2] at hq'
    omega
  have hre : roundHalfEven num den = if 2 * (num % den) < den then num / den
      else if den < 2 * (num % den) then num / den + 1
      else if (num / den) % 2 = 0 then num / den else num / den + 1 := rfl
  rw [hre]
  split
  · exact ⟨hqa, hqb⟩
  · split
    · exact ⟨by omega, hsucc (by omega)⟩
    · split
      · exact ⟨hqa, hqb⟩
      · exact ⟨by omega, hsucc (by omega)⟩

theorem survivor_bounds {w : Nat} {row : List Nat} {c : Nat}
    (hc : c ∈ rowNonzeroCols (zeroMargins w row)) :
    200 ≤ c ∧ c < pEnd w := by
  unfold rowNonzeroCols at hc
  rw [List.mem_map] at hc
  obtain ⟨p, hp, rfl⟩ := hc
  rw [List.mem_filter] at hp
  obtain ⟨hmem, hpred⟩ := hp
  rw [List.mem_enum_iff_getElem?] at hmem
  unfold zeroMargins at hmem
  rw [List.getElem?_map, List.getElem?_enum] at hmem
  cases hrow : row[p.1]? with
  | none => rw [hrow] at hmem; cases hmem
  | some a =>
    rw [hrow] at hmem
    simp only [Option.map_some'] at hmem
    injection hmem with hmem
    rw [decide_eq_true_iff] at hpred
    by_cases hcond : p.1 < 200 ∨ pEnd w ≤ p.1
    · rw [← hmem] at hpred
      simp only [if_pos hcond] at hpred
      exact absurd rfl hpred
    · omega

theorem survivingCols_bounds {w : Nat} {rows : List (List Nat)} {c : Nat}
    (hc : c ∈ survivingCols w rows) : 200 ≤ c ∧ c < pEnd w := by
  unfold survivingCols at hc
  rw [List.mem_flatten] at hc
  obtain ⟨l, hl, hcl⟩ := hc
  rw [List.mem_map] at hl
  obtain ⟨r, _, rfl⟩ := hl
  exact survivor_bounds hcl

theorem avg_col_range {w g : Nat} {rows : List (List Nat)}
    (h : avg_col w rows = .ok g) : 0 < g ∧ g < w := by
  unfold avg_col at h
  by_cases hc : survivingCols w rows = []
  · rw [if_pos hc] at h
    cases h
  · rw [if_neg hc] at h
    injection h with h
    obtain ⟨c0, hc0⟩ := List.exists_mem_of_ne_nil _ hc
    have hb0 := survivingCols_bounds hc0
    have hlen : 0 < (survivingCols w rows).length := List.length_pos.mpr hc
    have hlow : 200 * (survivingCols w rows).length ≤ (survivingCols w rows).sum := by
      have := List.card_nsmul_le_sum (survivingCols w rows) 200
        (fun x hx => (survivingCols_bounds hx).1)
      simpa [smul_eq_mul, Nat.mul_comm] using this
    have hhigh : (survivingCols w rows).sum
        ≤ (pEnd w - 1) * (survivingCols w rows).length := by
      have := List.sum_le_card_nsmul (survivingCols w rows) (pEnd w - 1)
        (fun x hx => by have := (survivingCols_bounds hx).2; omega)
      simpa [smul_eq_mul, Nat.mul_comm] using this
    have hb := roundHalfEven_bounds hlen hlow hhigh
    rw [h] at hb
    have hpw := pEnd_le_self w
    omega

/-! Evaluation lemmas for the page pipeline. -/

theorem page_header_no_cr {name : Str} (hn : ∀ c ∈ name, c ≠ '\r') :
    ∀ c ∈ page_header name, c ≠ '\r' := by
  intro c hc
  unfold page_header at hc
  rcases List.mem_append.mp hc with h | h
  · rcases List.mem_append.mp h with h2 | h2
    · have hl : ∀ c ∈ ("\n\n--- ").toList, c ≠ '\r' := by decide
      exact hl c h2
    · exact hn c h2
  · have hl : ∀ c ∈ (" ---\n").toList, c ≠ '\r' := by decide
    exact hl c h

theorem psi_success {p : PageJob} {l r : Str}
    (hs : p.split_ok = .ok ()) (hl : p.ocr_left = .ok l) (hr : p.ocr_right = .ok r)
    (hne : ¬ pyStrip l ++ pyStrip r = []) :
    process_single_image p = page_header p.name ++ (pyStrip l ++ pyStrip r) := by
  unfold process_single_image ocr_attempt
  simp only [hs, hl, hr]
  rw [if_neg hne]

theorem psi_fail {p : PageJob} {e : Str} (h : ocr_attempt p = .error e) :
    process_single_image p
      = page_header p.name ++ ("[OCR processing failed: ").toList ++ e ++ ("]").toList := by
  unfold process_single_image
  rw [h]

theorem process_single_image_header (p : PageJob) :
    ∃ t, process_single_image p = page_header p.name ++ t := by
  unfold process_single_image ocr_attempt
  cases p.split_ok with
  | error e =>
    exact ⟨("[OCR processing failed: ").toList ++ (e ++ ("]").toList),
      by simp [List.append_assoc]⟩
  | ok u =>
    cases p.ocr_left with
    | error e =>
      exact ⟨("[OCR processing failed: ").toList ++ (e ++ ("]").toList),
        by simp [List.append_assoc]⟩
    | ok l =>
      cases p.ocr_right with
      | error e =>
        exact ⟨("[OCR processing failed: ").toList ++ (e ++ ("]").toList),
          by simp [List.append_assoc]⟩
      | ok r =>
        dsimp only
        by_cases hne : pyStrip l ++ pyStrip r = []
        · rw [if_pos hne]
          exact ⟨_, rfl⟩
        · rw [if_neg hne]
          exact ⟨_, rfl⟩

theorem process_images_dir_missing (dir : Str) (entries : List PageJob) :
    process_images false dir entries
      = .error (("Images directory not found: ").toList ++ dir) := by
  unfold process_images get_image_files
  rw [if_pos rfl]

theorem process_images_empty {entries : List PageJob} (h : glob_order entries = [])
    (dir : Str) :
    process_images true dir entries
      = .error (("No image files found in directory: ").toList ++ dir) := by
  unfold process_images get_image_files
  rw [if_neg (by simp), if_pos (by rw [List.isEmpty_iff]; exact h)]

theorem process_images_ok {entries : List PageJob} (h : ¬ glob_order entries = [])
    (dir : Str) :
    process_images true dir entries
      = .ok (((glob_order entries).map
          (fun p => cleanNewlines (process_single_image p))).flatten) := by
  unfold process_images get_image_files
  rw [if_neg (by simp), if_neg (by rw [List.isEmpty_iff]; exact h)]
  rw [show (match Except.ok (glob_order entries) with
      | Except.error e => (Except.error e : Except Str Str)
      | Except.ok files => Except.ok (files.foldl
          (fun acc p => acc ++ cleanNewlines (process_single_image p)) []))
      = Except.ok ((glob_order entries).foldl
          (fun acc p => acc ++ cleanNewlines (process_single_image p)) []) from rfl]
  rw [foldl_append_eq, List.nil_append]

/-! Theorems settling the claims. -/

/-- C1, counterexample: in context mode the returned source content is each
chunk body followed by a blank line, which differs from the chunk bodies
joined (intercalated) with blank lines — here `a LF LF b LF LF` versus
`a LF LF b`. -/
theorem claim_C1_counterexample :
    analyse_question env_rag ['q'] true
        = .ok (.rag ⟨[], []⟩, ['a', '\n', '\n', 'b', '\n', '\n'])
      ∧ ['a', '\n', '\n', 'b', '\n', '\n']
          ≠ spec_joined_with_blank_lines [['a'], ['b']] := by
  constructor
  · rfl
  · decide

/-- C1, amended: on every successful context-mode call the returned source
content equals the concatenation of the retrieved chunk bodies each followed
by a blank-line separator; the value is computed before parsing and does not
depend on the validator, but when validation fails the call raises and
returns nothing. -/
theorem claim_C1_amended (env : LlmEnv) (q raw : Str) (docs : List Str)
    (h : env.rag_chain q = .ok (raw, docs)) :
    (∀ res sc, analyse_question env q true = .ok (res, sc)
        → sc = docs.foldl (fun acc d => acc ++ d ++ ['\n', '\n']) [])
      ∧ (∀ e, env.validate_rag (extract_json_from_markdown raw) = .error e
        → analyse_question env q true = .error e) := by
  constructor
  · intro res sc hok
    rw [analyse_rag_eq env q raw docs h] at hok
    cases hv : env.validate_rag (extract_json_from_markdown raw) with
    | error e =>
      rw [hv] at hok
      simp at hok
    | ok a =>
      rw [hv] at hok
      simp only [Except.ok.injEq, Prod.mk.injEq] at hok
      exact hok.2.symm
  · intro e hv
    rw [analyse_rag_eq env q raw docs h, hv]

/-- C1, witness for the amended theorem at the concrete environment. -/
theorem claim_C1_amended_witness :
    ['a', '\n', '\n', 'b', '\n', '\n']
      = [['a'], ['b']].foldl (fun acc d => acc ++ d ++ ['\n', '\n']) ([] : Str) := by
  have h := claim_C1_amended env_rag ['q'] ['x'] [['a'], ['b']] rfl
  exact h.1 (.rag ⟨[], []⟩) ['a', '\n', '\n', 'b', '\n', '\n'] rfl

/-- C6: the extraction step takes the interior of a marked fenced block when
one is present and otherwise falls back to the full raw text, normalizing
curly double quotes; hence in context-free mode a model response wrapping a
curly-quoted payload in a fenced JSON block validates to the same result as
the plain-quote, unwrapped equivalent content. -/
theorem claim_C6_fenced_curly_equals_plain (p q : Str) (env1 env2 : LlmEnv)
    (hp : hasSub fence p = false)
    (h1 : env1.simple_chain q = .ok (fence_wrap p))
    (h2 : env2.simple_chain q = .ok (fixQuotes p))
    (hv : env1.validate_simple = env2.validate_simple) :
    extract_json_from_markdown (fence_wrap p) = extract_json_from_markdown (fixQuotes p)
      ∧ analyse_question env1 q false = analyse_question env2 q false := by
  have hext : extract_json_from_markdown (fence_wrap p)
      = extract_json_from_markdown (fixQuotes p) := by
    rw [extract_fence_wrap hp, extract_no_fence hp]
  refine ⟨hext, ?_⟩
  rw [analyse_simple_eq env1 q _ h1, analyse_simple_eq env2 q _ h2, hext, hv]

/-- C6, witness: concrete curly-quoted payload, fenced versus plain. -/
theorem claim_C6_witness :
    hasSub fence ['“', 'a', '”'] = false
      ∧ (extract_json_from_markdown (fence_wrap ['“', 'a', '”'])
          = extract_json_from_markdown (fixQuotes ['“', 'a', '”'])
        ∧ analyse_question env_fenced ['q'] false
          = analyse_question env_plain ['q'] false) :=
  ⟨by decide, claim_C6_fenced_curly_equals_plain ['“', 'a', '”'] ['q'] env_fenced env_plain
    (by decide) rfl rfl rfl⟩

/-- C9: a successful context-free call returns the empty string as source
content, so only context mode can return non-empty source content. -/
theorem claim_C9_simple_mode_empty_source (env : LlmEnv) (q : Str)
    (res : AnalysisOut) (sc : Str)
    (h : analyse_question env q false = .ok (res, sc)) : sc = [] := by
  cases hs : env.simple_chain q with
  | error e =>
    rw [analyse_simple_err hs] at h
    cases h
  | ok raw =>
    rw [analyse_simple_eq env q raw hs] at h
    cases hv : env.validate_simple (extract_json_from_markdown raw) with
    | error e =>
      rw [hv] at h
      cases h
    | ok a =>
      rw [hv] at h
      simp only [Except.ok.injEq, Prod.mk.injEq] at h
      exact h.2.symm

/-- C9, witness at a successful concrete simple-mode environment. -/
theorem claim_C9_witness :
    analyse_question env_simple ['q'] false = .ok (.simple ⟨[]⟩, []) ∧ ([] : Str) = [] :=
  ⟨rfl, claim_C9_simple_mode_empty_source env_simple ['q'] (.simple ⟨[]⟩) [] rfl⟩

/-- C10: the extraction/normalization step is idempotent — applying the
fenced-block extraction plus curly-quote normalization twice yields the same
result as applying it once. -/
theorem claim_C10_extract_idempotent (s : Str) :
    extract_json_from_markdown (extract_json_from_markdown s)
      = extract_json_from_markdown s := by
  cases hf : findSub jsonFence s with
  | none =>
    have hnb : ∀ i, findSub jsonFence s = some i →
        findSub fence (s.drop (i + 7)) = none := by
      intro i hi
      rw [hf] at hi
      cases hi
    rw [extract_eq_of_none hf,
      extract_eq_fallback_of_noBlock (noBlock_fixQuotes_pyStrip hnb),
      pyStrip_fixQuotes, pyStrip_idem, fixQuotes_idem]
  | some i =>
    cases hc : findSub fence (s.drop (i + 7)) with
    | none =>
      have hnb : ∀ i0, findSub jsonFence s = some i0 →
          findSub fence (s.drop (i0 + 7)) = none := by
        intro i0 hi0
        rw [hf] at hi0
        injection hi0 with hh
        subst hh
        exact hc
      rw [extract_eq_of_noclose hf hc,
        extract_eq_fallback_of_noBlock (noBlock_fixQuotes_pyStrip hnb),
        pyStrip_fixQuotes, pyStrip_idem, fixQuotes_idem]
    | some j =>
      rw [extract_eq_interior hf hc,
        extract_no_fence (hasSub_false_pyStrip (interior_no_fence hc)), pyStrip_idem]

/-- C2, counterexample: when the left-column OCR call raises, the page's
output is only the failure placeholder — the right column's extracted text
does not appear in it. -/
theorem claim_C2_counterexample :
    process_single_image page_left_fails
        = page_header (("p2.jpg").toList)
          ++ ("[OCR processing failed: model timeout]").toList
      ∧ hasSub (("right column text").toList)
          (process_single_image page_left_fails) = false := by
  constructor
  · rfl
  · decide

/-- C2, amended: a per-column OCR failure is caught at page granularity:
whichever column's call raises, the page's entire output becomes the header
followed by the placeholder built from the exception text, the other
column's text being discarded; the page function itself never raises, so
the batch continues. -/
theorem claim_C2_amended (name l r reason : Str) :
    process_single_image ⟨name, .ok (), .error reason, .ok r⟩
        = page_header name
          ++ ("[OCR processing failed: ").toList ++ reason ++ ("]").toList
      ∧ process_single_image ⟨name, .ok (), .ok l, .error reason⟩
        = page_header name
          ++ ("[OCR processing failed: ").toList ++ reason ++ ("]").toList := by
  constructor
  · exact psi_fail rfl
  · exact psi_fail rfl

/-- C3, counterexample: with an unreadable corpus and a buildable simple
chain, construction raises the corpus error and initializes nothing —
although the simple pipeline initializes fine in isolation — because the
constructor runs both initializations eagerly, RAG first. -/
theorem claim_C3_counterexample :
    service_init env_setup_ragfail = .error (("corpus file unreadable").toList)
      ∧ ensure_simple_ready env_setup_ragfail ⟨none, none, none, none⟩
        = .ok ⟨none, none, none, some ()⟩ := by
  constructor
  · rfl
  · rfl

/-- C3, amended: each ensure step is an at-most-once guard that skips work
when its pipeline is already present and re-raises its own failures, but the
constructor invokes both eagerly (RAG first), so a document-loading failure
aborts construction as a whole, and a successfully constructed service has
both pipelines initialized. -/
theorem claim_C3_amended {D V C S : Type} (env : SetupEnv D V C S)
    (s : SvcState D V C S) (e : Str) :
    (s.rag_chain.isSome = true → s.retriever.isSome = true
        → ensure_rag_ready env s = .ok s)
      ∧ (s.simple_chain.isSome = true → ensure_simple_ready env s = .ok s)
      ∧ (env.load_documents = .error e → service_init env = .error e)
      ∧ (∀ s1, service_init env = .ok s1
          → s1.rag_chain.isSome = true ∧ s1.simple_chain.isSome = true) := by
  refine ⟨?_, ?_, ?_, ?_⟩
  · intro h1 h2
    unfold ensure_rag_ready
    rw [if_pos ⟨h1, h2⟩]
  · intro h1
    unfold ensure_simple_ready
    rw [if_pos h1]
  · intro h
    unfold service_init ensure_rag_ready
    rw [if_neg (by simp), h]
  · intro s1 h1
    unfold service_init ensure_rag_ready at h1
    rw [if_neg (by simp)] at h1
    cases hd : env.load_documents with
    | error e2 => simp only [hd] at h1; cases h1
    | ok d =>
      simp only [hd] at h1
      cases hvv : env.setup_vector_store d with
      | error e2 => simp only [hvv] at h1; cases h1
      | ok v =>
        simp only [hvv] at h1
        cases hcc : env.setup_rag_chain v with
        | error e2 => simp only [hcc] at h1; cases h1
        | ok c =>
          simp only [hcc] at h1
          unfold ensure_simple_ready at h1
          rw [if_neg (by simp)] at h1
          cases hsc : env.setup_simple_chain with
          | error e2 => simp only [hsc] at h1; cases h1
          | ok c2 =>
            simp only [hsc] at h1
            injection h1 with h1
            rw [← h1]
            exact ⟨rfl, rfl⟩

/-- C3, witness: the guard skips re-initialization on a fully initialized
state, and the concrete RAG-failing environment aborts construction. -/
theorem claim_C3_amended_witness :
    ensure_rag_ready env_setup_ragfail ⟨some (), some (), some (), some ()⟩
        = .ok ⟨some (), some (), some (), some ()⟩
      ∧ service_init env_setup_ragfail = .error (("corpus file unreadable").toList) := by
  have h := claim_C3_amended env_setup_ragfail ⟨some (), some (), some (), some ()⟩
    (("corpus file unreadable").toList)
  exact ⟨h.1 rfl rfl, h.2.2.1 rfl⟩

/-- C4: for a gutter column actually produced by the detector on an image of
width `w`, the splitter's left half spans the first `GutterColumn` pixels of
each row and the right half the rest, the widths add up to `w`, and both
halves are non-empty. -/
theorem claim_C4_split_widths (w g : Nat) (rows : List (List Nat))
    (hw : ∀ r ∈ rows, r.length = w) (hg : avg_col w rows = .ok g) :
    split_image w rows = .ok (split_halves g rows)
      ∧ 0 < g ∧ g < w
      ∧ ∀ r ∈ rows,
          (r.take g).length + (r.drop g).length = w
          ∧ (r.take g).length = g ∧ (r.drop g).length = w - g
          ∧ r.take g ≠ [] ∧ r.drop g ≠ [] := by
  obtain ⟨hg0, hgw⟩ := avg_col_range hg
  refine ⟨?_, hg0, hgw, ?_⟩
  · unfold split_image
    rw [hg]
  · intro r hr
    have hlen := hw r hr
    have ht : (r.take g).length = g := by
      rw [List.length_take]
      omega
    have hd : (r.drop g).length = w - g := by
      rw [List.length_drop]
      omega
    refine ⟨by omega, ht, hd, ?_, ?_⟩
    · rw [← List.length_pos, ht]
      omega
    · rw [← List.length_pos, hd]
      omega

/-- C4, witness: a 450-wide mask whose only survivor is column 220. -/
theorem claim_C4_witness :
    split_image 450 mask_dot = .ok (split_halves 220 mask_dot)
      ∧ 0 < 220 ∧ 220 < 450 := by
  have h := claim_C4_split_widths 450 220 mask_dot (by decide) (by rfl)
  exact ⟨h.1, h.2.1, h.2.2.1⟩

/-- C5: evaluation at the failing input.  On an all-white page no pixel
survives the filtering, and the computation fails with the NaN integer
conversion error inherited from averaging an empty index set — an explicit
raise, but a numeric error rather than the descriptive one the spec
mandates. -/
theorem claim_C5_empty_mask_numeric_error :
    survivingCols 450 blank_mask = []
      ∧ avg_col 450 blank_mask
        = .error (("cannot convert float NaN to integer").toList)
      ∧ split_image 450 blank_mask
        = .error (("cannot convert float NaN to integer").toList) := by
  refine ⟨rfl, rfl, rfl⟩

/-- C7: a failure confined to page two of a three-page batch never prevents
the other pages' text from appearing: the batch succeeds, and its output
contains page one's cleaned text, page two's failure annotation, and page
three's cleaned text, in listing order. -/
theorem claim_C7_page_failure_isolated (dir : Str) (p1 p2 p3 : PageJob)
    (l1 r1 l3 r3 e : Str)
    (hn1 : ∀ c ∈ p1.name, c ≠ '\r') (hn2 : ∀ c ∈ p2.name, c ≠ '\r')
    (hn3 : ∀ c ∈ p3.name, c ≠ '\r')
    (hext1 : endsWith ((".jpeg").toList) p1.name = false)
    (hext2 : endsWith ((".jpeg").toList) p2.name = false)
    (hext3 : endsWith ((".jpeg").toList) p3.name = false)
    (hjpg1 : endsWith ((".jpg").toList) p1.name = true)
    (hjpg2 : endsWith ((".jpg").toList) p2.name = true)
    (hjpg3 : endsWith ((".jpg").toList) p3.name = true)
    (hpng1 : endsWith ((".png").toList) p1.name = false)
    (hpng2 : endsWith ((".png").toList) p2.name = false)
    (hpng3 : endsWith ((".png").toList) p3.name = false)
    (hs1 : p1.split_ok = .ok ()) (hl1 : p1.ocr_left = .ok l1)
    (hr1 : p1.ocr_right = .ok r1) (hne1 : ¬ pyStrip l1 ++ pyStrip r1 = [])
    (hfail2 : ocr_attempt p2 = .error e)
    (hs3 : p3.split_ok = .ok ()) (hl3 : p3.ocr_left = .ok l3)
    (hr3 : p3.ocr_right = .ok r3) (hne3 : ¬ pyStrip l3 ++ pyStrip r3 = []) :
    process_images true dir [p1, p2, p3]
        = .ok (cleanNewlines (process_single_image p1)
            ++ (cleanNewlines (process_single_image p2)
              ++ (cleanNewlines (process_single_image p3) ++ [])))
      ∧ hasSub (cleanNewlines (pyStrip l1 ++ pyStrip r1))
          (cleanNewlines (process_single_image p1)
            ++ (cleanNewlines (process_single_image p2)
              ++ (cleanNewlines (process_single_image p3) ++ []))) = true
      ∧ hasSub (cleanNewlines
            (("[OCR processing failed: ").toList ++ (e ++ ("]").toList)))
          (cleanNewlines (process_single_image p1)
            ++ (cleanNewlines (process_single_image p2)
              ++ (cleanNewlines (process_single_image p3) ++ []))) = true
      ∧ hasSub (cleanNewlines (pyStrip l3 ++ pyStrip r3))
          (cleanNewlines (process_single_image p1)
            ++ (cleanNewlines (process_single_image p2)
              ++ (cleanNewlines (process_single_image p3) ++ []))) = true := by
  have e1 : endsWith ['.', 'j', 'p', 'e', 'g'] p1.name = false := hext1
  have e2 : endsWith ['.', 'j', 'p', 'e', 'g'] p2.name = false := hext2
  have e3 : endsWith ['.', 'j', 'p', 'e', 'g'] p3.name = false := hext3
  have j1 : endsWith ['.', 'j', 'p', 'g'] p1.name = true := hjpg1
  have j2 : endsWith ['.', 'j', 'p', 'g'] p2.name = true := hjpg2
  have j3 : endsWith ['.', 'j', 'p', 'g'] p3.name = true := hjpg3
  have g1 : endsWith ['.', 'p', 'n', 'g'] p1.name = false := hpng1
  have g2 : endsWith ['.', 'p', 'n', 'g'] p2.name = false := hpng2
  have g3 : endsWith ['.', 'p', 'n', 'g'] p3.name = false := hpng3
  have hglob : glob_order [p1, p2, p3] = [p1, p2, p3] := by
    simp [glob_order, List.filter_cons, e1, e2, e3, j1, j2, j3, g1, g2, g3]
  have hout := @process_images_ok [p1, p2, p3] (by rw [hglob]; simp) dir
  rw [hglob] at hout
  have hshape : (([p1, p2, p3].map (fun p => cleanNewlines (process_single_image p))).flatten)
      = cleanNewlines (process_single_image p1)
        ++ (cleanNewlines (process_single_image p2)
          ++ (cleanNewlines (process_single_image p3) ++ [])) := rfl
  rw [hshape] at hout
  have hb1 := psi_success hs1 hl1 hr1 hne1
  have hb3 := psi_success hs3 hl3 hr3 hne3
  have hb2 := psi_fail hfail2
  have hc1 : cleanNewlines (process_single_image p1)
      = ((page_header p1.name).map swapNL).map swapCR
        ++ cleanNewlines (pyStrip l1 ++ pyStrip r1) := by
    rw [hb1, cleanNewlines_no_cr_append (page_header_no_cr hn1)]
  have hc3 : cleanNewlines (process_single_image p3)
      = ((page_header p3.name).map swapNL).map swapCR
        ++ cleanNewlines (pyStrip l3 ++ pyStrip r3) := by
    rw [hb3, cleanNewlines_no_cr_append (page_header_no_cr hn3)]
  have hc2 : cleanNewlines (process_single_image p2)
      = ((page_header p2.name).map swapNL).map swapCR
        ++ cleanNewlines (("[OCR processing failed: ").toList ++ (e ++ ("]").toList)) := by
    rw [hb2, show page_header p2.name ++ ("[OCR processing failed: ").toList ++ e
        ++ ("]").toList
      = page_header p2.name
        ++ (("[OCR processing failed: ").toList ++ (e ++ ("]").toList)) by
        simp [List.append_assoc]]
    rw [cleanNewlines_no_cr_append (page_header_no_cr hn2)]
  refine ⟨hout, ?_, ?_, ?_⟩
  · rw [hc1]
    have hmid := hasSub_append_middle (cleanNewlines (pyStrip l1 ++ pyStrip r1))
      (((page_header p1.name).map swapNL).map swapCR)
      (cleanNewlines (process_single_image p2)
        ++ (cleanNewlines (process_single_image p3) ++ []))
    have heq : ((page_header p1.name).map swapNL).map swapCR
        ++ (cleanNewlines (pyStrip l1 ++ pyStrip r1)
          ++ (cleanNewlines (process_single_image p2)
            ++ (cleanNewlines (process_single_image p3) ++ [])))
        = (((page_header p1.name).map swapNL).map swapCR
            ++ cleanNewlines (pyStrip l1 ++ pyStrip r1))
          ++ (cleanNewlines (process_single_image p2)
            ++ (cleanNewlines (process_single_image p3) ++ [])) := by
      simp [List.append_assoc]
    rw [heq] at hmid
    exact hmid
  · rw [hc2]
    have hmid := hasSub_append_middle
      (cleanNewlines (("[OCR processing failed: ").toList ++ (e ++ ("]").toList)))
      (cleanNewlines (process_single_image p1)
        ++ ((page_header p2.name).map swapNL).map swapCR)
      (cleanNewlines (process_single_image p3) ++ [])
    have heq : (cleanNewlines (process_single_image p1)
          ++ ((page_header p2.name).map swapNL).map swapCR)
        ++ (cleanNewlines (("[OCR processing failed: ").toList ++ (e ++ ("]").toList))
          ++ (cleanNewlines (process_single_image p3) ++ []))
        = cleanNewlines (process_single_image p1)
          ++ ((((page_header p2.name).map swapNL).map swapCR
              ++ cleanNewlines
                (("[OCR processing failed: ").toList ++ (e ++ ("]").toList)))
            ++ (cleanNewlines (process_single_image p3) ++ [])) := by
      simp [List.append_assoc]
    rw [heq] at hmid
    exact hmid
  · rw [hc3]
    have hmid := hasSub_append_middle (cleanNewlines (pyStrip l3 ++ pyStrip r3))
      (cleanNewlines (process_single_image p1)
        ++ (cleanNewlines (process_single_image p2)
          ++ ((page_header p3.name).map swapNL).map swapCR))
      ([] : Str)
    have heq : (cleanNewlines (process_single_image p1)
          ++ (cleanNewlines (process_single_image p2)
            ++ ((page_header p3.name).map swapNL).map swapCR))
        ++ (cleanNewlines (pyStrip l3 ++ pyStrip r3) ++ [])
        = cleanNewlines (process_single_image p1)
          ++ (cleanNewlines (process_single_image p2)
            ++ ((((page_header p3.name).map swapNL).map swapCR
                ++ cleanNewlines (pyStrip l3 ++ pyStrip r3)) ++ [])) := by
      simp [List.append_assoc]
    rw [heq] at hmid
    exact hmid

/-- C7, witness: a concrete three-page batch whose middle page's left OCR
call raises. -/
theorem claim_C7_witness :
    process_images true (("dir").toList) [page_one, page_left_fails, page_three]
        = .ok (cleanNewlines (process_single_image page_one)
            ++ (cleanNewlines (process_single_image page_left_fails)
              ++ (cleanNewlines (process_single_image page_three) ++ [])))
      ∧ hasSub (cleanNewlines (pyStrip (("first page text").toList) ++ pyStrip []))
          (cleanNewlines (process_single_image page_one)
            ++ (cleanNewlines (process_single_image page_left_fails)
              ++ (cleanNewlines (process_single_image page_three) ++ []))) = true := by
  have h := claim_C7_page_failure_isolated (("dir").toList)
    page_one page_left_fails page_three
    (("first page text").toList) [] (("third page text").toList) []
    (("model timeout").toList)
    (by decide) (by decide) (by decide)
    (by decide) (by decide) (by decide)
    (by decide) (by decide) (by decide)
    (by decide) (by decide) (by decide)
    rfl rfl rfl (by decide) rfl rfl rfl rfl (by decide)
  exact ⟨h.1, h.2.1⟩

/-- C8, counterexample: with a `.png` file listed before a `.jpg` file, the
batch output places the `.jpg` page first — extension-grouped order, not
directory-listing order. -/
theorem claim_C8_counterexample :
    process_images true (("dir").toList) [page_png, page_jpg]
        = .ok (cleanNewlines (process_single_image page_jpg)
            ++ cleanNewlines (process_single_image page_png))
      ∧ cleanNewlines (process_single_image page_jpg)
            ++ cleanNewlines (process_single_image page_png)
          ≠ cleanNewlines (process_single_image page_png)
            ++ cleanNewlines (process_single_image page_jpg) := by
  constructor
  · rfl
  · decide

/-- C8, amended: the batch processor returns one string concatenating the
per-page texts in extension-grouped order (`.jpeg` files first, then `.jpg`,
then `.png`, each group in listing order), every page carrying its header,
with no line-break character left in the output; it fails with a not-found
error naming the directory when the directory is absent or no matching image
file exists. -/
theorem claim_C8_amended (dir : Str) (entries : List PageJob) :
    process_images false dir entries
        = .error (("Images directory not found: ").toList ++ dir)
      ∧ (glob_order entries = [] → process_images true dir entries
        = .error (("No image files found in directory: ").toList ++ dir))
      ∧ (¬ glob_order entries = [] → process_images true dir entries
        = .ok (((glob_order entries).map
            (fun p => cleanNewlines (process_single_image p))).flatten))
      ∧ (∀ out, process_images true dir entries = .ok out
          → ∀ c ∈ out, c ≠ '\n' ∧ c ≠ '\r')
      ∧ (∀ p : PageJob, ∃ t, process_single_image p = page_header p.name ++ t) := by
  refine ⟨process_images_dir_missing dir entries, fun h => process_images_empty h dir,
    fun h => process_images_ok h dir, ?_, process_single_image_header⟩
  intro out hout c hc
  by_cases hg : glob_order entries = []
  · rw [process_images_empty hg dir] at hout
    cases hout
  · rw [process_images_ok hg dir] at hout
    injection hout with hout
    rw [← hout] at hc
    rw [List.mem_flatten] at hc
    obtain ⟨l, hl, hcl⟩ := hc
    rw [List.mem_map] at hl
    obtain ⟨pp, _, rfl⟩ := hl
    exact cleanNewlines_no_newline _ c hcl

/-- C8, witness for the amended theorem: both error modes and the grouped
success mode at concrete inputs. -/
theorem claim_C8_amended_witness :
    process_images false (("dir").toList) [page_png, page_jpg]
        = .error (("Images directory not found: ").toList ++ ("dir").toList)
      ∧ process_images true (("dir").toList) ([] : List PageJob)
        = .error (("No image files found in directory: ").toList ++ ("dir").toList)
      ∧ process_images true (("dir").toList) [page_png, page_jpg]
        = .ok (((glob_order [page_png, page_jpg]).map
            (fun p => cleanNewlines (process_single_image p))).flatten) := by
  have h1 := claim_C8_amended (("dir").toList) [page_png, page_jpg]
  have h2 := claim_C8_amended (("dir").toList) ([] : List PageJob)
  exact ⟨h1.1, h2.2.1 rfl, h1.2.2.1 (by
    rw [show glob_order [page_png, page_jpg] = [page_jpg, page_png] from rfl]
    exact List.cons_ne_nil _ _)⟩

end CbtSpec
